import Mathlib

/-!
Verification of the gas-metering injector of `near/wasm-utils`
(`src/gas/mod.rs`), against its natural-language specification.

The embedding models:
* the instruction and module data model (`parity_wasm::elements`, as far as
  the injector observes it),
* `insert_metering_calls`, `inject_counter`, `add_grow_counter` and
  `inject_gas_counter` from `src/gas/mod.rs`, translated statement by
  statement, and
* the pieces that `src/gas/mod.rs` imports from `global_based_counter`
  and `rules` (not part of the given sources): those are modelled from the
  specification, each marked `Modelled from the spec:` in its doc comment.

Machine integers are modelled as naturals (`u32`, `u64`) or integers with
explicit reduction modulo `2 ^ 32` where the code truncates (`as i32`).
-/

namespace Gas

/-- Wasm 1.0 instructions, as far as the gas injector distinguishes them
(mirrors `parity_wasm::elements::Instruction`; block types of `Block`,
`Loop` and `If` are irrelevant to the injector and omitted; every
instruction the injector treats uniformly is `Other`). An `I32Const`
payload is the signed 32-bit value it carries. -/
inductive Instruction where
  | Block : Instruction
  | Loop : Instruction
  | If : Instruction
  | Else : Instruction
  | End : Instruction
  | Br : Nat → Instruction
  | BrIf : Nat → Instruction
  | BrTable : List Nat → Nat → Instruction
  | Return : Instruction
  | Unreachable : Instruction
  | Call : Nat → Instruction
  | CallIndirect : Nat → Instruction
  | GetLocal : Nat → Instruction
  | GetGlobal : Nat → Instruction
  | GrowMemory : Nat → Instruction
  | I32Const : Int → Instruction
  | I32Mul : Instruction
  | F32Const : Nat → Instruction
  | Drop : Instruction
  | Other : Nat → Instruction
deriving DecidableEq, Repr

/-- A metered block, as consumed by `insert_metering_calls`: the index at
which the charge is inserted and the accumulated (64-bit, here unbounded
natural) cost. -/
structure MeteredBlock where
  start_pos : Nat
  cost : Nat
deriving DecidableEq, Repr

/-- Truncation of a natural to the low 32 bits reinterpreted as a signed
32-bit integer: the meaning of Rust's `as i32` on a `u64` or `u32`. -/
def toI32 (x : Nat) : Int :=
  if x % 2 ^ 32 < 2 ^ 31 then ((x % 2 ^ 32 : Nat) : Int)
  else ((x % 2 ^ 32 : Nat) : Int) - 2 ^ 32

/-- The bit pattern (in `[0, 2^32)`) of a signed 32-bit integer: the value
an `i32.const` pushes, seen as an unsigned word. -/
def u32OfI32 (v : Int) : Nat := (v % 2 ^ 32).toNat

/-- The loop of `insert_metering_calls` (gas/mod.rs lines 72-91): walk the
original instructions carrying the position counter and the not yet
consumed blocks (the peekable iterator); when the next block starts at the
current position, emit `i32.const (cost as i32); call gas_func` before the
instruction and consume the block. Returns the rebuilt sequence and the
blocks left unconsumed at the end of the stream. -/
def imcLoop (gas_func : Nat) :
    List Instruction → Nat → List MeteredBlock →
    List Instruction × List MeteredBlock
  | [], _, bs => ([], bs)
  | i :: rest, pos, [] =>
    let r := imcLoop gas_func rest (pos + 1) []
    (i :: r.1, r.2)
  | i :: rest, pos, b :: bs =>
    if b.start_pos = pos then
      let r := imcLoop gas_func rest (pos + 1) bs
      (Instruction.I32Const (toI32 b.cost) :: Instruction.Call gas_func :: i :: r.1, r.2)
    else
      let r := imcLoop gas_func rest (pos + 1) (b :: bs)
      (i :: r.1, r.2)

/-- `insert_metering_calls` (gas/mod.rs lines 55-96): rebuild the
instruction sequence with the metering charges inserted; if any block was
never reached (`block_iter.next().is_some()` after the loop) the call
fails. -/
def insert_metering_calls (instructions : List Instruction)
    (blocks : List MeteredBlock) (gas_func : Nat) :
    Option (List Instruction) :=
  let r := imcLoop gas_func instructions 0 blocks
  if r.2.isEmpty then some r.1 else none

/-- The claim's reference description of the rebuilt sequence: for each
block in order, the instructions before its `start_pos` are copied, then
the pair `i32.const (cost as i32); call gas_func` is inserted immediately
before the instruction standing at `start_pos`, and the walk continues
after that instruction. -/
def insertSpec (gas_func : Nat) :
    List MeteredBlock → List Instruction → Nat → List Instruction
  | [], instrs, _ => instrs
  | b :: bs, instrs, pos =>
    instrs.take (b.start_pos - pos) ++
      (Instruction.I32Const (toI32 b.cost) :: Instruction.Call gas_func ::
        (match instrs.drop (b.start_pos - pos) with
         | [] => []
         | x :: xs => x :: insertSpec gas_func bs xs (b.start_pos + 1)))

/-- Deleting, for each block in order, the two instructions inserted at its
`start_pos`: the inverse walk of `insertSpec`. -/
def eraseSpec :
    List MeteredBlock → List Instruction → Nat → List Instruction
  | [], out, _ => out
  | b :: bs, out, pos =>
    out.take (b.start_pos - pos) ++
      (match (out.drop (b.start_pos - pos)).drop 2 with
       | [] => []
       | x :: xs => x :: eraseSpec bs xs (b.start_pos + 1))

/-- Modelled from the spec: the rule set (`rules::Set`, not among the given
sources). Per §3 it is an oracle with three queries: per-instruction cost
(a `u32`), forbidden-ness, and the `memory.grow` cost per page (a `u32`,
`0` disables dynamic grow metering). -/
structure RuleSet where
  cost : Instruction → Nat
  is_forbidden : Instruction → Bool
  grow_cost : Nat

/-- Modelled from the spec: querying the rule oracle for one instruction
fails when the instruction is forbidden, otherwise yields its cost
(§4.1). -/
def rulesProcess (rules : RuleSet) (i : Instruction) : Option Nat :=
  if rules.is_forbidden i then none else some (rules.cost i)

/-- Modelled from the spec: a control frame of the analyzer
(`global_based_counter`, not among the given sources). It carries the
lowest stack index of a non-loop frame targeted by a forward branch from
within this frame, the metered block currently accumulating cost for this
frame, and whether the frame is a loop (branches to a loop re-enter its
start, so they are not forward exits). -/
structure ControlBlock where
  lowest_forward_br_target : Nat
  active_metered_block : MeteredBlock
  is_loop : Bool
deriving DecidableEq, Repr

/-- Modelled from the spec: the analyzer state — a stack of control frames
(head of the list is the top of the stack; the bottom frame is the
synthetic function frame) and the list of finalized metered blocks. -/
structure Counter where
  stack : List ControlBlock
  finalized_blocks : List MeteredBlock
deriving DecidableEq, Repr

/-- Modelled from the spec: open a control frame whose active metered
block starts at `cursor` with cost `0`; its own stack index is the initial
lowest forward branch target. -/
def beginControlBlock (c : Counter) (cursor : Nat) (is_loop : Bool) : Counter :=
  { c with stack := ⟨c.stack.length, ⟨cursor, 0⟩, is_loop⟩ :: c.stack }

/-- Modelled from the spec: add an instruction's cost to the top frame's
active metered block (fails when no frame is open, i.e. past the final
`end`). -/
def incrementCounter (c : Counter) (val : Nat) : Option Counter :=
  match c.stack with
  | [] => none
  | top :: rest =>
    some { c with stack :=
      { top with active_metered_block :=
        { top.active_metered_block with
          cost := top.active_metered_block.cost + val } } :: rest }

/-- Modelled from the spec: close the top frame's active metered block at
`cursor` and start a fresh one at `cursor + 1`. Per the merging rule
(§4.2), when the closing block starts at the same position as the active
block of the frame below (a `block` opener inherits that position), the
two are merged by adding the costs — all paths through one traverse the
other; otherwise the closing block is finalized, and emitted only when its
cost is non-zero (zero-cost suppression, §4.2 and §8 invariant 2). -/
def finalizeMeteredBlock (c : Counter) (cursor : Nat) : Option Counter :=
  match c.stack with
  | [] => none
  | top :: rest =>
    let closing := top.active_metered_block
    let top1 := { top with active_metered_block := (⟨cursor + 1, 0⟩ : MeteredBlock) }
    match rest with
    | prev :: rest1 =>
      if closing.start_pos = prev.active_metered_block.start_pos then
        some { c with stack := top1 ::
          { prev with active_metered_block :=
            { prev.active_metered_block with
              cost := prev.active_metered_block.cost + closing.cost } } :: rest1 }
      else
        some { stack := top1 :: prev :: rest1,
               finalized_blocks :=
                 if 0 < closing.cost then c.finalized_blocks ++ [closing]
                 else c.finalized_blocks }
    | [] =>
      some { stack := [top1],
             finalized_blocks :=
               if 0 < closing.cost then c.finalized_blocks ++ [closing]
               else c.finalized_blocks }

/-- Modelled from the spec: close the top control frame at an `end`
(§4.2). Its active block is finalized or merged downward; the frame is
popped and its lowest forward branch target propagated to the new top.
If a branch escaped below the closed frame, control after the `end` is a
rejoin point only some paths reach, so the new top's active block is also
finalized; otherwise it keeps accumulating across the `end`. -/
def finalizeControlBlock (c : Counter) (cursor : Nat) : Option Counter :=
  match finalizeMeteredBlock c cursor with
  | none => none
  | some c1 =>
    match c1.stack with
    | [] => none
    | closing :: rest =>
      match rest with
      | [] => some { c1 with stack := [] }
      | top :: rest1 =>
        let c2 : Counter := { c1 with stack :=
          { top with lowest_forward_br_target :=
              Nat.min top.lowest_forward_br_target closing.lowest_forward_br_target } :: rest1 }
        if closing.lowest_forward_br_target < rest.length then
          finalizeMeteredBlock c2 cursor
        else some c2

/-- Modelled from the spec: record forward branch targets (absolute frame
indices, bottom = 0) on the top frame, skipping loop targets (a branch to
a loop is a backward jump). -/
def branchUpdateLow : Counter → List Nat → Option Counter
  | c, [] => some c
  | c, idx :: rest =>
    match c.stack.get? (c.stack.length - 1 - idx) with
    | none => none
    | some target =>
      if target.is_loop then branchUpdateLow c rest
      else
        match c.stack with
        | [] => none
        | top :: tl =>
          branchUpdateLow
            { c with stack :=
              { top with lowest_forward_br_target :=
                  Nat.min top.lowest_forward_br_target idx } :: tl } rest

/-- Modelled from the spec: a branch terminator at `cursor` (§4.2): the
current metered block is finalized (a new block begins at `cursor + 1`)
and every non-loop target lowers the top frame's lowest forward branch
target. -/
def branchCounter (c : Counter) (cursor : Nat) (indices : List Nat) : Option Counter :=
  match finalizeMeteredBlock c cursor with
  | none => none
  | some c1 => branchUpdateLow c1 indices

/-- Modelled from the spec: the index of the active (top) control frame,
absolute from the bottom of the stack. -/
def activeControlBlockIndex (c : Counter) : Option Nat :=
  if c.stack.isEmpty then none else some (c.stack.length - 1)

/-- Modelled from the spec: convert branch label depths to absolute frame
indices (depth 0 targets the innermost frame); a depth exceeding the stack
fails (§4.2 tie-breaks). -/
def targetIndices (active : Nat) : List Nat → Option (List Nat)
  | [] => some []
  | l :: rest =>
    if l ≤ active then (targetIndices active rest).map ((active - l) :: ·)
    else none

/-- Modelled from the spec: one step of the control-stack analyzer (§4.2)
on the instruction at `cursor`. The rule oracle is queried first (a
forbidden instruction aborts). `block` opens a frame whose active block
inherits the current block's start (mergeable on close); `if` and `loop`
open a frame whose block starts at `cursor + 1`; `else` and `end` finalize
blocks; branches, including `return` (a branch to the function frame),
finalize the current block and record forward targets; everything else
accumulates cost. `unreachable` is a terminator: a new block begins after
it. -/
def dmbStep (rules : RuleSet) (cursor : Nat) (i : Instruction) (c : Counter) :
    Option Counter := do
  let cost ← rulesProcess rules i
  match i with
  | .Block =>
    let c1 ← incrementCounter c cost
    match c1.stack with
    | [] => none
    | top :: _ =>
      some (beginControlBlock c1 top.active_metered_block.start_pos false)
  | .If =>
    let c1 ← incrementCounter c cost
    some (beginControlBlock c1 (cursor + 1) false)
  | .Loop =>
    let c1 ← incrementCounter c cost
    some (beginControlBlock c1 (cursor + 1) true)
  | .End => finalizeControlBlock c cursor
  | .Else => finalizeMeteredBlock c cursor
  | .Br label =>
    let c1 ← incrementCounter c cost
    let active ← activeControlBlockIndex c1
    if label ≤ active then branchCounter c1 cursor [active - label] else none
  | .BrIf label =>
    let c1 ← incrementCounter c cost
    let active ← activeControlBlockIndex c1
    if label ≤ active then branchCounter c1 cursor [active - label] else none
  | .BrTable labels dflt =>
    let c1 ← incrementCounter c cost
    let active ← activeControlBlockIndex c1
    let targets ← targetIndices active (dflt :: labels)
    branchCounter c1 cursor targets
  | .Return =>
    let c1 ← incrementCounter c cost
    branchCounter c1 cursor [0]
  | .Unreachable =>
    let c1 ← incrementCounter c cost
    finalizeMeteredBlock c1 cursor
  | _ => incrementCounter c cost

/-- Modelled from the spec: the analyzer's walk over a body, carrying the
cursor. -/
def dmbRun (rules : RuleSet) : List Instruction → Nat → Counter → Option Counter
  | [], _, c => some c
  | i :: rest, cursor, c =>
    match dmbStep rules cursor i c with
    | none => none
    | some c1 => dmbRun rules rest (cursor + 1) c1

/-- The finalized blocks ordered by start position (the analyzer finalizes
inner blocks before outer ones, so it sorts before handing the list to the
injector). -/
def sortBlocks (blocks : List MeteredBlock) : List MeteredBlock :=
  blocks.insertionSort (fun a b => a.start_pos ≤ b.start_pos)

/-- Modelled from the spec: `determine_metered_blocks`
(`global_based_counter`, not among the given sources) — the control-stack
analyzer of §4.2. It walks the body once from an implicit function-level
frame; it fails on a forbidden instruction, a malformed branch depth, or
instructions past the final `end`, and per §4.2 it fails when frames other
than the function frame remain open at the end of the body. The finalized
blocks are returned sorted by `start_pos`. The model is validated below
against the test vectors of `src/gas/mod.rs`. -/
def determine_metered_blocks (instructions : List Instruction)
    (rules : RuleSet) : Option (List MeteredBlock) :=
  match dmbRun rules instructions 0 (beginControlBlock ⟨[], []⟩ 0 false) with
  | none => none
  | some c =>
    if c.stack.length ≤ 1 then some (sortBlocks c.finalized_blocks) else none

/-- `inject_counter` (gas/mod.rs lines 45-52): analyze the body, then
insert the metering calls. The Rust function mutates the body in place and
reports success or failure; the model returns the final state of the body
in both cases — on an analyzer failure the body is left as given, on an
injector desynchronization the body is left as the loop rebuilt it. -/
def inject_counter (instructions : List Instruction) (rules : RuleSet)
    (gas_func : Nat) : Except (List Instruction) (List Instruction) :=
  match determine_metered_blocks instructions rules with
  | none => Except.error instructions
  | some blocks =>
    match insert_metering_calls instructions blocks gas_func with
    | some out => Except.ok out
    | none => Except.error (imcLoop gas_func instructions 0 blocks).1

/-- Modelled from the spec: `update_call_index`
(`global_based_counter`, not among the given sources) — §4.4: every
`call idx` with `idx ≥ gas_func` is incremented by one; other instructions
are untouched. -/
def update_call_index (instructions : List Instruction) (gas_func : Nat) :
    List Instruction :=
  instructions.map fun i =>
    match i with
    | .Call idx => .Call (if gas_func ≤ idx then idx + 1 else idx)
    | other => other

/-- Modelled from the spec: `inject_grow_counter`
(`global_based_counter`, not among the given sources) — §4.5: replace
every `memory.grow 0` by `call grow_counter_func` and return the rewritten
body together with the number of substitutions. -/
def inject_grow_counter (instructions : List Instruction)
    (grow_counter_func : Nat) : List Instruction × Nat :=
  (instructions.map fun i =>
    if i = Instruction.GrowMemory 0 then Instruction.Call grow_counter_func else i,
   instructions.countP fun i => decide (i = Instruction.GrowMemory 0))

/-- The number of `memory.grow 0` instructions in a sequence. -/
def countGrow (instructions : List Instruction) : Nat :=
  instructions.countP fun i => decide (i = Instruction.GrowMemory 0)

/-- Wasm 1.0 value types (`parity_wasm::elements::ValueType`). -/
inductive ValueType where
  | i32 : ValueType
  | i64 : ValueType
  | f32 : ValueType
  | f64 : ValueType
deriving DecidableEq, Repr

/-- A function signature: parameter types and optional return type
(`parity_wasm::elements::FunctionType`). -/
structure FunctionType where
  params : List ValueType
  ret : Option ValueType
deriving DecidableEq, Repr

/-- The kind of an import (`parity_wasm::elements::External`): a
function import carries a type index. -/
inductive External where
  | func : Nat → External
  | table : Nat → External
  | memory : Nat → External
  | global : Nat → External
deriving DecidableEq, Repr

/-- An import entry: module name, field name and kind. -/
structure ImportEntry where
  module_name : String
  field_name : String
  kind : External
deriving DecidableEq, Repr

/-- What an export refers to (`parity_wasm::elements::Internal`). -/
inductive Internal where
  | Function : Nat → Internal
  | Table : Nat → Internal
  | Memory : Nat → Internal
  | Global : Nat → Internal
deriving DecidableEq, Repr

/-- An export entry: exported name and referent. -/
structure ExportEntry where
  field_name : String
  internal : Internal
deriving DecidableEq, Repr

/-- An element segment: table index and the function indices of its
members (Wasm 1.0 elements are always `funcref`). -/
structure ElementSegment where
  index : Nat
  members : List Nat
deriving DecidableEq, Repr

/-- A function body: its instruction sequence (locals are irrelevant to
the injector). -/
structure FuncBody where
  code : List Instruction
deriving DecidableEq, Repr

/-- The module, as far as the injector observes it (the spec's ModuleView,
§3): types, imports, the function section (type indices of defined
functions), code bodies, exports, element segments and the optional start
function. Sections the injector ignores (globals, memories, tables, data)
are omitted. -/
structure Module where
  types : List FunctionType
  imports : List ImportEntry
  functions : List Nat
  bodies : List FuncBody
  exports : List ExportEntry
  elements : List ElementSegment
  start : Option Nat
deriving DecidableEq, Repr

/-- Whether an import entry is a function import. -/
def isFuncImport : ImportEntry → Bool
  | ⟨_, _, External.func _⟩ => true
  | _ => false

/-- `module.import_count(ImportCountType::Function)`: the number of
function imports. -/
def importCountFunc (m : Module) : Nat := m.imports.countP isFuncImport

/-- `module.functions_space()`: function imports plus defined functions
(the unified function index space). -/
def functions_space (m : Module) : Nat :=
  importCountFunc m + m.functions.length

/-- The first step of `inject_gas_counter` (gas/mod.rs lines 135-151),
with the builder (`parity_wasm::builder`, an external collaborator)
modelled from the spec's ModuleView: append the signature `(i32) → ()` to
the type section and append the import `env.gas` of that signature to
the import section. -/
def with_gas_import (m : Module) : Module :=
  { m with
    types := m.types ++ [⟨[ValueType.i32], none⟩],
    imports := m.imports ++ [⟨"env", "gas", External.func m.types.length⟩] }

/-- The gas function index computed by `inject_gas_counter` (line 157):
the function-import count of the module with the gas import, minus one. -/
def gas_func_index (m : Module) : Nat :=
  importCountFunc (with_gas_import m) - 1

/-- The body of the synthesized grow thunk (gas/mod.rs lines 28-38):
`local.get 0; local.get 0; i32.const (grow_cost as i32); i32.mul;
call gas_func; memory.grow 0; end`. -/
def grow_thunk_body (rules : RuleSet) (gas_func : Nat) : List Instruction :=
  [Instruction.GetLocal 0, Instruction.GetLocal 0,
   Instruction.I32Const (toI32 rules.grow_cost), Instruction.I32Mul,
   Instruction.Call gas_func, Instruction.GrowMemory 0, Instruction.End]

/-- `add_grow_counter` (gas/mod.rs lines 20-43), with the builder's
`push_function` modelled from the spec's ModuleView: append the signature
`(i32) → i32`, a function entry referencing it, and the thunk body. -/
def add_grow_counter (m : Module) (rules : RuleSet) (gas_func : Nat) : Module :=
  { m with
    types := m.types ++ [⟨[ValueType.i32], some ValueType.i32⟩],
    functions := m.functions ++ [m.types.length],
    bodies := m.bodies ++ [⟨grow_thunk_body rules gas_func⟩] }

/-- The index shift applied to function references (gas/mod.rs lines
184, 194, 198): indices at or above the gas function index move up by
one. -/
def shiftIndex (gas_func idx : Nat) : Nat :=
  if gas_func ≤ idx then idx + 1 else idx

/-- The export-section rewrite (gas/mod.rs lines 179-187): only
function-typed internals are shifted. -/
def shiftExportEntry (gas_func : Nat) (e : ExportEntry) : ExportEntry :=
  match e.internal with
  | Internal.Function idx =>
    { e with internal := Internal.Function (shiftIndex gas_func idx) }
  | _ => e

/-- The element-section rewrite (gas/mod.rs lines 188-197): every segment
member is shifted. -/
def shiftSegment (gas_func : Nat) (s : ElementSegment) : ElementSegment :=
  { s with members := s.members.map (shiftIndex gas_func) }

/-- The code-section loop of `inject_gas_counter` (lines 163-177): each
body gets its call indices updated, then is metered; a metering failure
stops the walk (remaining bodies untouched) and raises the error flag;
otherwise, when the grow cost is positive, `memory.grow` is substituted
and the need for the grow thunk recorded. Returns the new bodies, the
error flag and the grow flag. -/
def processBodies (rules : RuleSet) (gas_func total_func : Nat) :
    List FuncBody → List FuncBody × Bool × Bool
  | [] => ([], false, false)
  | b :: rest =>
    let code1 := update_call_index b.code gas_func
    match inject_counter code1 rules gas_func with
    | Except.error codeE => (⟨codeE⟩ :: rest, true, false)
    | Except.ok code2 =>
      let pr :=
        if 0 < rules.grow_cost then inject_grow_counter code2 total_func
        else (code2, 0)
      let r := processBodies rules gas_func total_func rest
      (⟨pr.1⟩ :: r.1, r.2.1, r.2.2 || decide (0 < pr.2))

/-- `inject_gas_counter` (gas/mod.rs lines 132-206): append the gas import,
compute the gas function index and the function space, instrument every
body, shift export, element and start references, and on success append
the grow thunk when needed. On failure the *current* (already mutated)
module is the error payload, as in the source. -/
def inject_gas_counter (m : Module) (rules : RuleSet) : Except Module Module :=
  let m1 := with_gas_import m
  let g := importCountFunc m1 - 1
  let t := functions_space m1
  let pb := processBodies rules g t m1.bodies
  let m2 : Module :=
    { m1 with
      bodies := pb.1,
      exports := m1.exports.map (shiftExportEntry g),
      elements := m1.elements.map (shiftSegment g),
      start := m1.start.map (shiftIndex g) }
  if pb.2.1 then Except.error m2
  else if pb.2.2 then Except.ok (add_grow_counter m2 rules g)
  else Except.ok m2

/-- A fragment evaluator for straight-line `i32` code (standard Wasm 1.0
operational semantics): values are 32-bit words (naturals below `2 ^ 32`),
`i32.mul` multiplies modulo `2 ^ 32`; the walk returns the operand of the
first `call gas_func`, i.e. the argument passed to the gas function. -/
def gasCallArg (gas_func local0 : Nat) :
    List Instruction → List Nat → Option Nat
  | Instruction.GetLocal 0 :: rest, st =>
    gasCallArg gas_func local0 rest (local0 :: st)
  | Instruction.I32Const v :: rest, st =>
    gasCallArg gas_func local0 rest (u32OfI32 v :: st)
  | Instruction.I32Mul :: rest, a :: b :: st =>
    gasCallArg gas_func local0 rest ((b * a) % 2 ^ 32 :: st)
  | Instruction.Call f :: _, a :: _ =>
    if f = gas_func then some a else none
  | _, _ => none

/-- The default rule set of the tests in gas/mod.rs: cost 1 per
instruction, nothing forbidden, no grow cost. -/
def defaultRules : RuleSet := ⟨fun _ => 1, fun _ => false, 0⟩

/-- The default rule set with a grow cost (`with_grow_cost`). -/
def growRules (c : Nat) : RuleSet := ⟨fun _ => 1, fun _ => false, c⟩

/-- The rule set of the `forbidden` test: floats forbidden
(`with_forbidden_floats`). -/
def forbidFloatsRules : RuleSet :=
  ⟨fun _ => 1,
   fun i => match i with | Instruction.F32Const _ => true | _ => false,
   0⟩

/-- A rule set pricing branches at zero and everything else at one — a
legitimate oracle per §3 (`cost(instr) → u32`). -/
def brFreeRules : RuleSet :=
  ⟨fun i => match i with | Instruction.Br _ => 0 | _ => 1,
   fun _ => false, 0⟩

/-- The module of the `forbidden` test: one function of type `(i32) → ()`
whose body is `f32.const 555555; end`. -/
def forbiddenModule : Module :=
  ⟨[⟨[ValueType.i32], none⟩], [], [0],
   [⟨[Instruction.F32Const 555555, Instruction.End]⟩], [], [], none⟩

/-- The module of the `simple` test: one function returning
`get_global 0`. -/
def simpleModule : Module :=
  ⟨[⟨[], some ValueType.i32⟩], [], [0],
   [⟨[Instruction.GetGlobal 0, Instruction.End]⟩], [], [], none⟩

/-- The module of the `simple_grow` test: one function whose body is
`get_global 0; memory.grow 0; end`. -/
def growModule : Module :=
  ⟨[⟨[ValueType.i32], none⟩], [], [0],
   [⟨[Instruction.GetGlobal 0, Instruction.GrowMemory 0, Instruction.End]⟩],
   [], [], none⟩

/-- A module whose single body starts with `br 0`: the branch ends the
first metered block before any cost accrues under `brFreeRules`. -/
def brModule : Module :=
  ⟨[⟨[], none⟩], [], [0],
   [⟨[Instruction.Br 0, Instruction.GetGlobal 0, Instruction.End]⟩],
   [], [], none⟩

/-- A module exercising export, element and start rewriting: one
function import, two defined functions, a function export, a global export, an
element segment and a start function. -/
def exportModule : Module :=
  ⟨[⟨[], none⟩],
   [⟨"env", "foo", External.func 0⟩],
   [0, 0],
   [⟨[Instruction.End]⟩, ⟨[Instruction.End]⟩],
   [⟨"f", Internal.Function 1⟩, ⟨"g", Internal.Global 0⟩],
   [⟨0, [0, 1, 2]⟩],
   some 2⟩

/-- The injected form of `simpleModule` under `defaultRules` (the
expected output of the `simple` test). -/
def simpleInjected : Module :=
  ⟨[⟨[], some ValueType.i32⟩, ⟨[ValueType.i32], none⟩],
   [⟨"env", "gas", External.func 1⟩],
   [0],
   [⟨[Instruction.I32Const 1, Instruction.Call 0, Instruction.GetGlobal 0,
      Instruction.End]⟩],
   [], [], none⟩

/-- The injected form of `exportModule` under `defaultRules`. -/
def exportInjected : Module :=
  ⟨[⟨[], none⟩, ⟨[ValueType.i32], none⟩],
   [⟨"env", "foo", External.func 0⟩, ⟨"env", "gas", External.func 1⟩],
   [0, 0],
   [⟨[Instruction.End]⟩, ⟨[Instruction.End]⟩],
   [⟨"f", Internal.Function 2⟩, ⟨"g", Internal.Global 0⟩],
   [⟨0, [0, 2, 3]⟩],
   some 3⟩

/-- The injected form of `growModule` under `growRules 10000` (the
expected output of the `simple_grow` test). -/
def growInjected : Module :=
  ⟨[⟨[ValueType.i32], none⟩, ⟨[ValueType.i32], none⟩,
    ⟨[ValueType.i32], some ValueType.i32⟩],
   [⟨"env", "gas", External.func 1⟩],
   [0, 2],
   [⟨[Instruction.I32Const 2, Instruction.Call 0, Instruction.GetGlobal 0,
      Instruction.Call 2, Instruction.End]⟩,
    ⟨[Instruction.GetLocal 0, Instruction.GetLocal 0,
      Instruction.I32Const 10000, Instruction.I32Mul, Instruction.Call 0,
      Instruction.GrowMemory 0, Instruction.End]⟩],
   [], [], none⟩

example :
    insert_metering_calls
      [Instruction.GetGlobal 0, Instruction.End]
      [⟨0, 2⟩] 0 =
    some [Instruction.I32Const 2, Instruction.Call 0,
          Instruction.GetGlobal 0, Instruction.End] := by decide

example :
    insert_metering_calls [Instruction.End] [⟨3, 2⟩] 0 = none := by decide

example :
    determine_metered_blocks
      [Instruction.GetGlobal 0, Instruction.End] defaultRules =
    some [⟨0, 1⟩] := by decide

/-! Validation of the spec-modelled analyzer against the test vectors of
`src/gas/mod.rs` (tests `nested`, `ifelse`, `branch_innermost`,
`branch_outer_block`, `branch_outer_loop`, `return_from_func`,
`branch_from_if_not_else`, `call_index`, `simple_grow`). -/

example :
    determine_metered_blocks
      [Instruction.GetGlobal 0, Instruction.Block, Instruction.GetGlobal 0,
       Instruction.GetGlobal 0, Instruction.GetGlobal 0, Instruction.End,
       Instruction.GetGlobal 0, Instruction.End] defaultRules =
    some [⟨0, 6⟩] := by decide

example :
    determine_metered_blocks
      [Instruction.GetGlobal 0, Instruction.If, Instruction.GetGlobal 0,
       Instruction.GetGlobal 0, Instruction.GetGlobal 0, Instruction.Else,
       Instruction.GetGlobal 0, Instruction.GetGlobal 0, Instruction.End,
       Instruction.GetGlobal 0, Instruction.End] defaultRules =
    some [⟨0, 3⟩, ⟨2, 3⟩, ⟨6, 2⟩] := by decide

example :
    determine_metered_blocks
      [Instruction.GetGlobal 0, Instruction.Block, Instruction.GetGlobal 0,
       Instruction.Drop, Instruction.Br 0, Instruction.GetGlobal 0,
       Instruction.Drop, Instruction.End, Instruction.GetGlobal 0,
       Instruction.End] defaultRules =
    some [⟨0, 6⟩, ⟨5, 2⟩] := by decide

example :
    determine_metered_blocks
      [Instruction.GetGlobal 0, Instruction.Block, Instruction.GetGlobal 0,
       Instruction.If, Instruction.GetGlobal 0, Instruction.GetGlobal 0,
       Instruction.Drop, Instruction.BrIf 1, Instruction.End,
       Instruction.GetGlobal 0, Instruction.Drop, Instruction.End,
       Instruction.GetGlobal 0, Instruction.End] defaultRules =
    some [⟨0, 5⟩, ⟨4, 4⟩, ⟨9, 2⟩] := by decide

example :
    determine_metered_blocks
      [Instruction.GetGlobal 0, Instruction.Loop, Instruction.GetGlobal 0,
       Instruction.If, Instruction.GetGlobal 0, Instruction.BrIf 0,
       Instruction.Else, Instruction.GetGlobal 0, Instruction.GetGlobal 0,
       Instruction.Drop, Instruction.BrIf 1, Instruction.End,
       Instruction.GetGlobal 0, Instruction.Drop, Instruction.End,
       Instruction.GetGlobal 0, Instruction.End] defaultRules =
    some [⟨0, 3⟩, ⟨2, 4⟩, ⟨4, 2⟩, ⟨7, 4⟩] := by decide

example :
    determine_metered_blocks
      [Instruction.GetGlobal 0, Instruction.If, Instruction.Return,
       Instruction.End, Instruction.GetGlobal 0, Instruction.End]
      defaultRules =
    some [⟨0, 2⟩, ⟨2, 1⟩, ⟨4, 1⟩] := by decide

example :
    determine_metered_blocks
      [Instruction.GetGlobal 0, Instruction.Block, Instruction.GetGlobal 0,
       Instruction.If, Instruction.Br 1, Instruction.Else, Instruction.Br 0,
       Instruction.End, Instruction.GetGlobal 0, Instruction.Drop,
       Instruction.End, Instruction.GetGlobal 0, Instruction.End]
      defaultRules =
    some [⟨0, 5⟩, ⟨4, 1⟩, ⟨6, 1⟩, ⟨8, 2⟩] := by decide

example :
    inject_gas_counter growModule (growRules 10000) =
      Except.ok
        ⟨[⟨[ValueType.i32], none⟩, ⟨[ValueType.i32], none⟩,
          ⟨[ValueType.i32], some ValueType.i32⟩],
         [⟨"env", "gas", External.func 1⟩],
         [0, 2],
         [⟨[Instruction.I32Const 2, Instruction.Call 0,
            Instruction.GetGlobal 0, Instruction.Call 2, Instruction.End]⟩,
          ⟨[Instruction.GetLocal 0, Instruction.GetLocal 0,
            Instruction.I32Const 10000, Instruction.I32Mul,
            Instruction.Call 0, Instruction.GrowMemory 0, Instruction.End]⟩],
         [], [], none⟩ := by rfl

example :
    inject_gas_counter growModule defaultRules =
      Except.ok
        ⟨[⟨[ValueType.i32], none⟩, ⟨[ValueType.i32], none⟩],
         [⟨"env", "gas", External.func 1⟩],
         [0],
         [⟨[Instruction.I32Const 2, Instruction.Call 0,
            Instruction.GetGlobal 0, Instruction.GrowMemory 0,
            Instruction.End]⟩],
         [], [], none⟩ := by rfl

/-! Helper lemmas about `imcLoop` and `insert_metering_calls`. -/

theorem imcLoop_blocksNil (g : Nat) :
    ∀ (instrs : List Instruction) (pos : Nat),
      imcLoop g instrs pos [] = (instrs, [])
  | [], _ => rfl
  | i :: rest, pos => by
    simp [imcLoop, imcLoop_blocksNil g rest (pos + 1)]

theorem imcLoop_snd_nil_iff (g : Nat) :
    ∀ (instrs : List Instruction) (pos : Nat) (blocks : List MeteredBlock),
      (imcLoop g instrs pos blocks).2 = [] ↔
        (List.Pairwise (fun a b => a.start_pos < b.start_pos) blocks ∧
          ∀ b ∈ blocks, pos ≤ b.start_pos ∧ b.start_pos < pos + instrs.length)
  | [], pos, [] => by simp [imcLoop]
  | [], pos, b :: bs => by
    simp only [imcLoop, List.length_nil]
    constructor
    · intro h
      exact absurd h (List.cons_ne_nil b bs)
    · rintro ⟨-, h⟩
      have hb := h b (List.mem_cons_self b bs)
      omega
  | i :: rest, pos, [] => by
    simp [imcLoop_blocksNil]
  | i :: rest, pos, b :: bs => by
    by_cases hb : b.start_pos = pos
    · simp only [imcLoop, if_pos hb]
      rw [imcLoop_snd_nil_iff g rest (pos + 1) bs]
      simp only [List.pairwise_cons, List.forall_mem_cons, List.length_cons]
      constructor
      · rintro ⟨hp, hall⟩
        refine ⟨⟨?_, hp⟩, ⟨?_, ?_⟩, ?_⟩
        · intro b' hb'
          have := (hall b' hb').1
          omega
        · omega
        · omega
        · intro b' hb'
          have := hall b' hb'
          omega
      · rintro ⟨⟨hlt, hp⟩, -, hall⟩
        refine ⟨hp, ?_⟩
        intro b' hb'
        have h1 := hlt b' hb'
        have h2 := hall b' hb'
        omega
    · simp only [imcLoop, if_neg hb]
      rw [imcLoop_snd_nil_iff g rest (pos + 1) (b :: bs)]
      simp only [List.pairwise_cons, List.forall_mem_cons, List.length_cons]
      constructor
      · rintro ⟨⟨hlt, hp⟩, hb1, hall⟩
        refine ⟨⟨hlt, hp⟩, ⟨?_, ?_⟩, ?_⟩
        · omega
        · omega
        · intro b' hb'
          have := hall b' hb'
          omega
      · rintro ⟨⟨hlt, hp⟩, hb1, hall⟩
        refine ⟨⟨hlt, hp⟩, ⟨?_, ?_⟩, ?_⟩
        · omega
        · omega
        · intro b' hb'
          have h1 := hlt b' hb'
          have h2 := hall b' hb'
          omega

theorem imcLoop_fst_length (g : Nat) :
    ∀ (instrs : List Instruction) (pos : Nat) (blocks : List MeteredBlock),
      (imcLoop g instrs pos blocks).2 = [] →
      (imcLoop g instrs pos blocks).1.length =
        instrs.length + 2 * blocks.length
  | [], pos, blocks => by
    intro h
    simp only [imcLoop] at h ⊢
    subst h
    rfl
  | i :: rest, pos, [] => by
    intro h
    simp [imcLoop_blocksNil]
  | i :: rest, pos, b :: bs => by
    by_cases hb : b.start_pos = pos
    · intro h
      simp only [imcLoop, if_pos hb] at h ⊢
      have := imcLoop_fst_length g rest (pos + 1) bs h
      simp only [List.length_cons] at this ⊢
      omega
    · intro h
      simp only [imcLoop, if_neg hb] at h ⊢
      have := imcLoop_fst_length g rest (pos + 1) (b :: bs) h
      simp only [List.length_cons] at this ⊢
      omega

theorem insertSpec_cons_lt (g : Nat) (b : MeteredBlock)
    (bs : List MeteredBlock) (i : Instruction) (instrs : List Instruction)
    (pos : Nat) (h : pos < b.start_pos) :
    insertSpec g (b :: bs) (i :: instrs) pos =
      i :: insertSpec g (b :: bs) instrs (pos + 1) := by
  simp only [insertSpec]
  have h1 : b.start_pos - pos = (b.start_pos - (pos + 1)) + 1 := by omega
  rw [h1, List.take_succ_cons, List.drop_succ_cons]
  rfl

theorem eraseSpec_cons_lt (b : MeteredBlock) (bs : List MeteredBlock)
    (i : Instruction) (out : List Instruction) (pos : Nat)
    (h : pos < b.start_pos) :
    eraseSpec (b :: bs) (i :: out) pos =
      i :: eraseSpec (b :: bs) out (pos + 1) := by
  simp only [eraseSpec]
  have h1 : b.start_pos - pos = (b.start_pos - (pos + 1)) + 1 := by omega
  rw [h1, List.take_succ_cons, List.drop_succ_cons]
  rfl

theorem imcLoop_fst_insertSpec (g : Nat) :
    ∀ (instrs : List Instruction) (pos : Nat) (blocks : List MeteredBlock),
      (imcLoop g instrs pos blocks).2 = [] →
      (imcLoop g instrs pos blocks).1 = insertSpec g blocks instrs pos
  | [], pos, blocks => by
    intro h
    simp only [imcLoop] at h ⊢
    subst h
    rfl
  | i :: rest, pos, [] => by
    intro h
    simp [imcLoop_blocksNil, insertSpec]
  | i :: rest, pos, b :: bs => by
    by_cases hb : b.start_pos = pos
    · intro h
      simp only [imcLoop, if_pos hb] at h ⊢
      rw [imcLoop_fst_insertSpec g rest (pos + 1) bs h]
      simp [insertSpec, hb]
    · intro h
      simp only [imcLoop, if_neg hb] at h ⊢
      have hlt : pos < b.start_pos := by
        have h2 := (imcLoop_snd_nil_iff g rest (pos + 1) (b :: bs)).mp h
        have h3 := (h2.2 b (List.mem_cons_self b bs)).1
        omega
      rw [imcLoop_fst_insertSpec g rest (pos + 1) (b :: bs) h,
        insertSpec_cons_lt g b bs i rest pos hlt]

theorem imcLoop_eraseSpec (g : Nat) :
    ∀ (instrs : List Instruction) (pos : Nat) (blocks : List MeteredBlock),
      (imcLoop g instrs pos blocks).2 = [] →
      eraseSpec blocks (imcLoop g instrs pos blocks).1 pos = instrs
  | [], pos, blocks => by
    intro h
    simp only [imcLoop] at h ⊢
    subst h
    rfl
  | i :: rest, pos, [] => by
    intro h
    simp [imcLoop_blocksNil, eraseSpec]
  | i :: rest, pos, b :: bs => by
    by_cases hb : b.start_pos = pos
    · intro h
      simp only [imcLoop, if_pos hb] at h ⊢
      have := imcLoop_eraseSpec g rest (pos + 1) bs h
      simp only [eraseSpec, hb, Nat.sub_self, List.take_zero,
        List.drop_zero, List.drop_succ_cons, List.nil_append]
      simp only [List.drop_succ_cons, List.drop_zero] at this ⊢
      rw [this]
    · intro h
      simp only [imcLoop, if_neg hb] at h ⊢
      have hlt : pos < b.start_pos := by
        have h2 := (imcLoop_snd_nil_iff g rest (pos + 1) (b :: bs)).mp h
        have h3 := (h2.2 b (List.mem_cons_self b bs)).1
        omega
      rw [eraseSpec_cons_lt b bs i _ pos hlt,
        imcLoop_eraseSpec g rest (pos + 1) (b :: bs) h]

theorem insert_metering_calls_eq_some (instrs : List Instruction)
    (blocks : List MeteredBlock) (g : Nat) (out : List Instruction) :
    insert_metering_calls instrs blocks g = some out ↔
      (imcLoop g instrs 0 blocks).2 = [] ∧
      (imcLoop g instrs 0 blocks).1 = out := by
  simp only [insert_metering_calls]
  cases h2 : (imcLoop g instrs 0 blocks).2 with
  | nil => simp
  | cons x xs => simp

theorem toI32_eq_self_iff (x : Nat) : toI32 x = (x : Int) ↔ x < 2 ^ 31 := by
  unfold toI32
  split <;> omega

/-! Projection lemmas for the module transformers. -/

@[simp] theorem with_gas_import_types (m : Module) :
    (with_gas_import m).types = m.types ++ [⟨[ValueType.i32], none⟩] := rfl

@[simp] theorem with_gas_import_imports (m : Module) :
    (with_gas_import m).imports =
      m.imports ++ [⟨"env", "gas", External.func m.types.length⟩] := rfl

@[simp] theorem with_gas_import_functions (m : Module) :
    (with_gas_import m).functions = m.functions := rfl

@[simp] theorem with_gas_import_bodies (m : Module) :
    (with_gas_import m).bodies = m.bodies := rfl

@[simp] theorem with_gas_import_exports (m : Module) :
    (with_gas_import m).exports = m.exports := rfl

@[simp] theorem with_gas_import_elements (m : Module) :
    (with_gas_import m).elements = m.elements := rfl

@[simp] theorem with_gas_import_start (m : Module) :
    (with_gas_import m).start = m.start := rfl

@[simp] theorem add_grow_counter_imports (m : Module) (rules : RuleSet)
    (g : Nat) : (add_grow_counter m rules g).imports = m.imports := rfl

@[simp] theorem add_grow_counter_exports (m : Module) (rules : RuleSet)
    (g : Nat) : (add_grow_counter m rules g).exports = m.exports := rfl

@[simp] theorem add_grow_counter_elements (m : Module) (rules : RuleSet)
    (g : Nat) : (add_grow_counter m rules g).elements = m.elements := rfl

@[simp] theorem add_grow_counter_start (m : Module) (rules : RuleSet)
    (g : Nat) : (add_grow_counter m rules g).start = m.start := rfl

@[simp] theorem add_grow_counter_types (m : Module) (rules : RuleSet)
    (g : Nat) :
    (add_grow_counter m rules g).types =
      m.types ++ [⟨[ValueType.i32], some ValueType.i32⟩] := rfl

@[simp] theorem add_grow_counter_functions (m : Module) (rules : RuleSet)
    (g : Nat) :
    (add_grow_counter m rules g).functions =
      m.functions ++ [m.types.length] := rfl

@[simp] theorem add_grow_counter_bodies (m : Module) (rules : RuleSet)
    (g : Nat) :
    (add_grow_counter m rules g).bodies =
      m.bodies ++ [⟨grow_thunk_body rules g⟩] := rfl

@[simp] theorem isFuncImport_gas (k : Nat) :
    isFuncImport ⟨"env", "gas", External.func k⟩ = true := rfl

theorem importCountFunc_with_gas_import (m : Module) :
    importCountFunc (with_gas_import m) = importCountFunc m + 1 := by
  simp [importCountFunc, with_gas_import, List.countP_append, List.countP_cons,
    isFuncImport]

theorem gas_func_index_eq (m : Module) :
    gas_func_index m = importCountFunc m := by
  simp [gas_func_index, importCountFunc_with_gas_import]

/-- Destructuring of a successful `inject_gas_counter` run: the body walk
reported no error, and every section of the output is determined by the
walk's result, the shifts, and (when the grow flag is set) the appended
thunk. -/
theorem inject_gas_counter_ok_fields (m : Module) (rules : RuleSet)
    (m' : Module) (h : inject_gas_counter m rules = Except.ok m') :
    (processBodies rules (gas_func_index m)
        (functions_space (with_gas_import m)) m.bodies).2.1 = false ∧
    m'.exports = m.exports.map (shiftExportEntry (gas_func_index m)) ∧
    m'.elements = m.elements.map (shiftSegment (gas_func_index m)) ∧
    m'.start = m.start.map (shiftIndex (gas_func_index m)) ∧
    m'.imports = m.imports ++ [⟨"env", "gas", External.func m.types.length⟩] ∧
    ((processBodies rules (gas_func_index m)
        (functions_space (with_gas_import m)) m.bodies).2.2 = true →
      m'.types = (m.types ++ [⟨[ValueType.i32], none⟩]) ++
          [⟨[ValueType.i32], some ValueType.i32⟩] ∧
      m'.functions = m.functions ++ [m.types.length + 1] ∧
      m'.bodies = (processBodies rules (gas_func_index m)
          (functions_space (with_gas_import m)) m.bodies).1 ++
        [⟨grow_thunk_body rules (gas_func_index m)⟩]) ∧
    ((processBodies rules (gas_func_index m)
        (functions_space (with_gas_import m)) m.bodies).2.2 = false →
      m'.types = m.types ++ [⟨[ValueType.i32], none⟩] ∧
      m'.functions = m.functions ∧
      m'.bodies = (processBodies rules (gas_func_index m)
          (functions_space (with_gas_import m)) m.bodies).1) := by
  have hg : importCountFunc (with_gas_import m) - 1 = gas_func_index m := rfl
  simp only [inject_gas_counter, with_gas_import_bodies, hg] at h
  split at h
  · exact absurd h (fun hh => Except.noConfusion hh)
  · next herr =>
    split at h
    · next hng =>
      cases h
      simp only [Bool.not_eq_true] at herr
      refine ⟨herr, ?_, ?_, ?_, ?_, ?_, ?_⟩
      · simp
      · simp
      · simp
      · simp
      · intro _
        refine ⟨?_, ?_, ?_⟩
        · simp
        · simp [with_gas_import]
        · simp
      · intro hc
        rw [hng] at hc
        exact absurd hc (by simp)
    · next hng =>
      cases h
      simp only [Bool.not_eq_true] at herr hng
      refine ⟨herr, ?_, ?_, ?_, ?_, ?_, ?_⟩
      · simp
      · simp
      · simp
      · simp
      · intro hc
        rw [hng] at hc
        exact absurd hc (by simp)
      · intro _
        exact ⟨by simp, by simp, by simp⟩

/-! ## Claim theorems -/

/-- C1: the claim states that when `inject_gas_counter` fails, the error
payload is the original module, unchanged — as the source's own doc
comment promises ("returning the original module as an Err"). The code
instead returns the module it has already mutated: on the forbidden-float
input below (the `forbidden` test module), the error payload already
carries the appended `env.gas` import, so it differs from the input. -/
theorem inject_gas_counter_error_payload_mutated :
    inject_gas_counter forbiddenModule forbidFloatsRules =
      Except.error (with_gas_import forbiddenModule) ∧
    with_gas_import forbiddenModule ≠ forbiddenModule :=
  ⟨rfl, by decide⟩

/-- C2: whenever `insert_metering_calls` succeeds, the output is the
original sequence with, for each block, the pair
`i32.const (cost as i32); call gas_func` inserted immediately before the
instruction at that block's `start_pos` (`insertSpec`); consequently the
output length is the original length plus twice the number of blocks, and
deleting every inserted pair (`eraseSpec`) restores exactly the original
sequence. -/
theorem insert_metering_calls_success_shape (instrs : List Instruction)
    (blocks : List MeteredBlock) (g : Nat) (out : List Instruction)
    (h : insert_metering_calls instrs blocks g = some out) :
    out = insertSpec g blocks instrs 0 ∧
    out.length = instrs.length + 2 * blocks.length ∧
    eraseSpec blocks out 0 = instrs := by
  obtain ⟨h2, h1⟩ := (insert_metering_calls_eq_some instrs blocks g out).mp h
  subst h1
  exact ⟨imcLoop_fst_insertSpec g instrs 0 blocks h2,
    imcLoop_fst_length g instrs 0 blocks h2,
    imcLoop_eraseSpec g instrs 0 blocks h2⟩

/-- Witness for C2 at a concrete input (the `simple` test body, one block
of cost 2 at position 0). -/
theorem insert_metering_calls_success_shape_witness :
    ([Instruction.I32Const 2, Instruction.Call 0, Instruction.GetGlobal 0,
        Instruction.End] : List Instruction) =
      insertSpec 0 [⟨0, 2⟩] [Instruction.GetGlobal 0, Instruction.End] 0 ∧
    ([Instruction.I32Const 2, Instruction.Call 0, Instruction.GetGlobal 0,
        Instruction.End] : List Instruction).length =
      ([Instruction.GetGlobal 0, Instruction.End] : List Instruction).length +
        2 * ([⟨0, 2⟩] : List MeteredBlock).length ∧
    eraseSpec [⟨0, 2⟩]
      [Instruction.I32Const 2, Instruction.Call 0, Instruction.GetGlobal 0,
        Instruction.End] 0 =
      [Instruction.GetGlobal 0, Instruction.End] :=
  insert_metering_calls_success_shape
    [Instruction.GetGlobal 0, Instruction.End] [⟨0, 2⟩] 0
    [Instruction.I32Const 2, Instruction.Call 0, Instruction.GetGlobal 0,
      Instruction.End] (by decide)

/-- C3: on success, the output has exactly one more function import than
the input; that import is `env.gas` with signature `(i32) → ()`, it is the
last of the function imports (indeed the last import), and the gas
function index used for the injected calls — `gas_func_index`, the value
`inject_gas_counter` passes to the body instrumentation — equals the
output's function-import count minus one. -/
theorem gas_import_appended (m : Module) (rules : RuleSet) (m' : Module)
    (h : inject_gas_counter m rules = Except.ok m') :
    importCountFunc m' = importCountFunc m + 1 ∧
    m'.imports = m.imports ++ [⟨"env", "gas", External.func m.types.length⟩] ∧
    m'.imports.filter isFuncImport =
      m.imports.filter isFuncImport ++
        [⟨"env", "gas", External.func m.types.length⟩] ∧
    m'.types[m.types.length]? = some ⟨[ValueType.i32], none⟩ ∧
    gas_func_index m = importCountFunc m' - 1 := by
  obtain ⟨-, -, -, -, him, hng, hnog⟩ := inject_gas_counter_ok_fields m rules m' h
  have hcount : importCountFunc m' = importCountFunc m + 1 := by
    simp [importCountFunc, him, List.countP_append]
  refine ⟨hcount, him, ?_, ?_, ?_⟩
  · rw [him, List.filter_append]
    simp
  · cases hflag : (processBodies rules (gas_func_index m)
        (functions_space (with_gas_import m)) m.bodies).2.2 with
    | true =>
      obtain ⟨ht, -, -⟩ := hng hflag
      rw [ht, List.getElem?_append_left (by simp), List.getElem?_concat_length]
    | false =>
      obtain ⟨ht, -, -⟩ := hnog hflag
      rw [ht, List.getElem?_concat_length]
  · rw [gas_func_index_eq, hcount]
    omega

/-- Witness for C3: the `simple` test module under the default rules. -/
theorem gas_import_appended_witness :
    importCountFunc simpleInjected = importCountFunc simpleModule + 1 ∧
    simpleInjected.imports = simpleModule.imports ++
      [⟨"env", "gas", External.func simpleModule.types.length⟩] ∧
    simpleInjected.imports.filter isFuncImport =
      simpleModule.imports.filter isFuncImport ++
        [⟨"env", "gas", External.func simpleModule.types.length⟩] ∧
    simpleInjected.types[simpleModule.types.length]? =
      some ⟨[ValueType.i32], none⟩ ∧
    gas_func_index simpleModule = importCountFunc simpleInjected - 1 :=
  gas_import_appended simpleModule defaultRules simpleInjected (by rfl)

/-- C4: on success, every function-typed export index, every
element-segment member and the start index that was at least
`gas_func_index` in the input is incremented by exactly one, and every
such index below `gas_func_index` is unchanged; names, segment structure
and section lengths are preserved. -/
theorem function_references_shifted (m : Module) (rules : RuleSet)
    (m' : Module) (h : inject_gas_counter m rules = Except.ok m') :
    m'.exports.length = m.exports.length ∧
    (∀ (k idx : Nat) (e : ExportEntry),
      m.exports[k]? = some e → e.internal = Internal.Function idx →
      ∃ e' : ExportEntry, m'.exports[k]? = some e' ∧
        e'.field_name = e.field_name ∧
        (gas_func_index m ≤ idx → e'.internal = Internal.Function (idx + 1)) ∧
        (idx < gas_func_index m → e'.internal = Internal.Function idx)) ∧
    m'.elements.length = m.elements.length ∧
    (∀ (k : Nat) (s : ElementSegment), m.elements[k]? = some s →
      ∃ s' : ElementSegment, m'.elements[k]? = some s' ∧ s'.index = s.index ∧
        s'.members.length = s.members.length ∧
        ∀ (j idx : Nat), s.members[j]? = some idx →
          (gas_func_index m ≤ idx → s'.members[j]? = some (idx + 1)) ∧
          (idx < gas_func_index m → s'.members[j]? = some idx)) ∧
    (m.start = none → m'.start = none) ∧
    (∀ s : Nat, m.start = some s →
      (gas_func_index m ≤ s → m'.start = some (s + 1)) ∧
      (s < gas_func_index m → m'.start = some s)) := by
  obtain ⟨-, hex, hel, hst, -, -, -⟩ := inject_gas_counter_ok_fields m rules m' h
  refine ⟨by rw [hex]; simp, ?_, by rw [hel]; simp, ?_, ?_, ?_⟩
  · intro k idx e hk hidx
    refine ⟨shiftExportEntry (gas_func_index m) e, ?_, ?_, ?_, ?_⟩
    · rw [hex]
      simp [hk]
    · cases hi : e.internal <;> simp [shiftExportEntry, hi]
    · intro hle
      simp [shiftExportEntry, hidx, shiftIndex, if_pos hle]
    · intro hlt
      simp [shiftExportEntry, hidx, shiftIndex, if_neg (Nat.not_le.mpr hlt)]
  · intro k s hk
    refine ⟨shiftSegment (gas_func_index m) s, ?_, rfl, by simp [shiftSegment], ?_⟩
    · rw [hel]
      simp [hk]
    · intro j idx hj
      constructor
      · intro hle
        simp [shiftSegment, hj, shiftIndex, if_pos hle]
      · intro hlt
        simp [shiftSegment, hj, shiftIndex, if_neg (Nat.not_le.mpr hlt)]
  · intro hnone
    rw [hst, hnone]
    rfl
  · intro s hs
    constructor
    · intro hle
      rw [hst, hs]
      simp [shiftIndex, if_pos hle]
    · intro hlt
      rw [hst, hs]
      simp [shiftIndex, if_neg (Nat.not_le.mpr hlt)]

/-- Witness for C4: a module with a function import, a function export, an
element segment and a start section, under the default rules. -/
theorem function_references_shifted_witness :
    exportInjected.exports.length = exportModule.exports.length ∧
    (∀ (k idx : Nat) (e : ExportEntry), exportModule.exports[k]? = some e →
      e.internal = Internal.Function idx →
      ∃ e' : ExportEntry, exportInjected.exports[k]? = some e' ∧
        e'.field_name = e.field_name ∧
        (gas_func_index exportModule ≤ idx →
          e'.internal = Internal.Function (idx + 1)) ∧
        (idx < gas_func_index exportModule →
          e'.internal = Internal.Function idx)) ∧
    exportInjected.elements.length = exportModule.elements.length ∧
    (∀ (k : Nat) (s : ElementSegment), exportModule.elements[k]? = some s →
      ∃ s' : ElementSegment, exportInjected.elements[k]? = some s' ∧
        s'.index = s.index ∧
        s'.members.length = s.members.length ∧
        ∀ (j idx : Nat), s.members[j]? = some idx →
          (gas_func_index exportModule ≤ idx →
            s'.members[j]? = some (idx + 1)) ∧
          (idx < gas_func_index exportModule → s'.members[j]? = some idx)) ∧
    (exportModule.start = none → exportInjected.start = none) ∧
    (∀ s : Nat, exportModule.start = some s →
      (gas_func_index exportModule ≤ s → exportInjected.start = some (s + 1)) ∧
      (s < gas_func_index exportModule → exportInjected.start = some s)) :=
  function_references_shifted exportModule defaultRules exportInjected (by rfl)

/-- C5: `insert_metering_calls` succeeds exactly when the blocks' start
positions are strictly increasing and all below the length of the
sequence; any out-of-range, duplicated or out-of-order block is left
unconsumed by the emission walk and makes the call fail. -/
theorem insert_metering_calls_isSome_iff (instrs : List Instruction)
    (blocks : List MeteredBlock) (g : Nat) :
    (insert_metering_calls instrs blocks g).isSome = true ↔
      (List.Pairwise (fun a b => a.start_pos < b.start_pos) blocks ∧
        ∀ b ∈ blocks, b.start_pos < instrs.length) := by
  have h : (insert_metering_calls instrs blocks g).isSome = true ↔
      (imcLoop g instrs 0 blocks).2 = [] := by
    simp only [insert_metering_calls]
    cases h2 : (imcLoop g instrs 0 blocks).2 <;> simp [h2]
  rw [h, imcLoop_snd_nil_iff]
  simp

/-- C6 (amended): the constant of the emitted `i32.const` is the block's
64-bit cost truncated to its low 32 bits and reinterpreted as a signed
32-bit integer (`toI32`, the meaning of the source's `block.cost as i32`);
it equals the cost exactly when the cost is below `2 ^ 31`, and wraps for
larger costs instead of carrying them. -/
theorem charge_const_is_truncated_cost (instrs : List Instruction)
    (blocks : List MeteredBlock) (g : Nat) (out : List Instruction)
    (h : insert_metering_calls instrs blocks g = some out) :
    out = insertSpec g blocks instrs 0 ∧
    ∀ b ∈ blocks, (toI32 b.cost = (b.cost : Int) ↔ b.cost < 2 ^ 31) := by
  obtain ⟨h2, h1⟩ := (insert_metering_calls_eq_some instrs blocks g out).mp h
  subst h1
  exact ⟨imcLoop_fst_insertSpec g instrs 0 blocks h2,
    fun b _ => toI32_eq_self_iff b.cost⟩

/-- Witness for the amended C6 at a block of cost `2 ^ 31`. -/
theorem charge_const_is_truncated_cost_witness :
    ([Instruction.I32Const (-(2 ^ 31)), Instruction.Call 0,
        Instruction.GetGlobal 0] : List Instruction) =
      insertSpec 0 [⟨0, 2 ^ 31⟩] [Instruction.GetGlobal 0] 0 ∧
    ∀ b ∈ ([⟨0, 2 ^ 31⟩] : List MeteredBlock),
      (toI32 b.cost = (b.cost : Int) ↔ b.cost < 2 ^ 31) :=
  charge_const_is_truncated_cost [Instruction.GetGlobal 0] [⟨0, 2 ^ 31⟩] 0
    [Instruction.I32Const (-(2 ^ 31)), Instruction.Call 0,
      Instruction.GetGlobal 0] (by decide)

/-- Counterexample to C6 as stated: for a block of cost `2 ^ 31` the
emitted constant is `-(2 ^ 31)`, not the block's cost `2 ^ 31`. -/
theorem charge_const_counterexample :
    insert_metering_calls [Instruction.GetGlobal 0] [⟨0, 2 ^ 31⟩] 0 =
      some [Instruction.I32Const (-(2 ^ 31)), Instruction.Call 0,
        Instruction.GetGlobal 0] ∧
    (-(2 ^ 31) : Int) ≠ ((2 ^ 31 : Nat) : Int) := by
  constructor
  · decide
  · decide

theorem u32OfI32_toI32 (x : Nat) : u32OfI32 (toI32 x) = x % 2 ^ 32 := by
  unfold u32OfI32 toI32
  split <;> omega

/-- C9: the grow thunk passes to the gas function the page count times the
grow cost computed with 32-bit wrapping multiplication (the grow cost
being the `u32` reinterpreted through `as i32`): for every page count `p`
the argument's bit pattern is `(p * grow_cost) % 2 ^ 32` — it wraps rather
than saturating or failing when the true product is large. -/
theorem grow_thunk_gas_arg (rules : RuleSet) (g p : Nat) (_hp : p < 2 ^ 32)
    (hg : rules.grow_cost < 2 ^ 32) :
    gasCallArg g p (grow_thunk_body rules g) [] =
      some ((p * rules.grow_cost) % 2 ^ 32) := by
  simp only [grow_thunk_body, gasCallArg, if_pos rfl, u32OfI32_toI32,
    Nat.mod_eq_of_lt hg]
  simp

/-! The analyzer only emits blocks of non-zero cost. -/

theorem incrementCounter_finalized {c c' : Counter} {v : Nat}
    (h : incrementCounter c v = some c') :
    c'.finalized_blocks = c.finalized_blocks := by
  simp only [incrementCounter] at h
  split at h
  · exact Option.noConfusion h
  · simp only [Option.some.injEq] at h
    subst h
    rfl

theorem beginControlBlock_finalized (c : Counter) (k : Nat) (b : Bool) :
    (beginControlBlock c k b).finalized_blocks = c.finalized_blocks := rfl

theorem finalizeMeteredBlock_pos {c c' : Counter} {cursor : Nat}
    (h : finalizeMeteredBlock c cursor = some c')
    (hc : ∀ b ∈ c.finalized_blocks, 0 < b.cost) :
    ∀ b ∈ c'.finalized_blocks, 0 < b.cost := by
  simp only [finalizeMeteredBlock] at h
  split at h
  · exact Option.noConfusion h
  · split at h
    · split at h
      · simp only [Option.some.injEq] at h
        subst h
        exact hc
      · simp only [Option.some.injEq] at h
        subst h
        intro b hb
        simp only at hb
        split at hb
        · next hpos =>
          rcases List.mem_append.mp hb with h1 | h1
          · exact hc b h1
          · rw [List.mem_singleton.mp h1]
            exact hpos
        · exact hc b hb
    · simp only [Option.some.injEq] at h
      subst h
      intro b hb
      simp only at hb
      split at hb
      · next hpos =>
        rcases List.mem_append.mp hb with h1 | h1
        · exact hc b h1
        · rw [List.mem_singleton.mp h1]
          exact hpos
      · exact hc b hb

theorem branchUpdateLow_finalized :
    ∀ {l : List Nat} {c c' : Counter}, branchUpdateLow c l = some c' →
      c'.finalized_blocks = c.finalized_blocks
  | [], c, c', h => by
    simp only [branchUpdateLow, Option.some.injEq] at h
    subst h
    rfl
  | idx :: rest, c, c', h => by
    simp only [branchUpdateLow] at h
    split at h
    · exact Option.noConfusion h
    · split at h
      · exact branchUpdateLow_finalized h
      · split at h
        · exact Option.noConfusion h
        · have h2 := branchUpdateLow_finalized h
          exact h2

theorem finalizeControlBlock_pos {c c' : Counter} {cursor : Nat}
    (h : finalizeControlBlock c cursor = some c')
    (hc : ∀ b ∈ c.finalized_blocks, 0 < b.cost) :
    ∀ b ∈ c'.finalized_blocks, 0 < b.cost := by
  simp only [finalizeControlBlock] at h
  split at h
  · exact Option.noConfusion h
  · next c1 hm =>
    have hc1 := finalizeMeteredBlock_pos hm hc
    split at h
    · exact Option.noConfusion h
    · split at h
      · simp only [Option.some.injEq] at h
        subst h
        exact hc1
      · split at h
        · exact finalizeMeteredBlock_pos h hc1
        · simp only [Option.some.injEq] at h
          subst h
          exact hc1

theorem branchCounter_pos {c c' : Counter} {cursor : Nat} {l : List Nat}
    (h : branchCounter c cursor l = some c')
    (hc : ∀ b ∈ c.finalized_blocks, 0 < b.cost) :
    ∀ b ∈ c'.finalized_blocks, 0 < b.cost := by
  simp only [branchCounter] at h
  split at h
  · exact Option.noConfusion h
  · next c1 hm =>
    have hc1 := finalizeMeteredBlock_pos hm hc
    intro b hb
    exact hc1 b ((branchUpdateLow_finalized h) ▸ hb)

theorem dmbStep_pos {rules : RuleSet} {cursor : Nat} {i : Instruction}
    {c c' : Counter} (h : dmbStep rules cursor i c = some c')
    (hc : ∀ b ∈ c.finalized_blocks, 0 < b.cost) :
    ∀ b ∈ c'.finalized_blocks, 0 < b.cost := by
  simp only [dmbStep] at h
  cases hr : rulesProcess rules i with
  | none =>
    rw [hr] at h
    simp at h
  | some cost =>
    rw [hr] at h
    simp only [Option.bind_eq_bind, Option.some_bind] at h
    cases i
    case Block =>
      cases hi : incrementCounter c cost with
      | none =>
        rw [hi] at h
        simp at h
      | some c1 =>
        rw [hi] at h
        simp only [Option.bind_eq_bind, Option.some_bind] at h
        split at h
        · exact Option.noConfusion h
        · simp only [Option.some.injEq] at h
          subst h
          intro b hb
          exact hc b ((incrementCounter_finalized hi) ▸ hb)
    case If =>
      cases hi : incrementCounter c cost with
      | none =>
        rw [hi] at h
        simp at h
      | some c1 =>
        rw [hi] at h
        simp only [Option.bind_eq_bind, Option.some_bind, Option.some.injEq] at h
        subst h
        intro b hb
        exact hc b ((incrementCounter_finalized hi) ▸ hb)
    case Loop =>
      cases hi : incrementCounter c cost with
      | none =>
        rw [hi] at h
        simp at h
      | some c1 =>
        rw [hi] at h
        simp only [Option.bind_eq_bind, Option.some_bind, Option.some.injEq] at h
        subst h
        intro b hb
        exact hc b ((incrementCounter_finalized hi) ▸ hb)
    case End => exact finalizeControlBlock_pos h hc
    case Else => exact finalizeMeteredBlock_pos h hc
    case Br label =>
      cases hi : incrementCounter c cost with
      | none =>
        rw [hi] at h
        simp at h
      | some c1 =>
        rw [hi] at h
        simp only [Option.bind_eq_bind, Option.some_bind] at h
        cases ha : activeControlBlockIndex c1 with
        | none =>
          rw [ha] at h
          simp at h
        | some active =>
          rw [ha] at h
          simp only [Option.bind_eq_bind, Option.some_bind] at h
          split at h
          · exact branchCounter_pos h
              (fun b hb => hc b ((incrementCounter_finalized hi) ▸ hb))
          · exact Option.noConfusion h
    case BrIf label =>
      cases hi : incrementCounter c cost with
      | none =>
        rw [hi] at h
        simp at h
      | some c1 =>
        rw [hi] at h
        simp only [Option.bind_eq_bind, Option.some_bind] at h
        cases ha : activeControlBlockIndex c1 with
        | none =>
          rw [ha] at h
          simp at h
        | some active =>
          rw [ha] at h
          simp only [Option.bind_eq_bind, Option.some_bind] at h
          split at h
          · exact branchCounter_pos h
              (fun b hb => hc b ((incrementCounter_finalized hi) ▸ hb))
          · exact Option.noConfusion h
    case BrTable labels dflt =>
      cases hi : incrementCounter c cost with
      | none =>
        rw [hi] at h
        simp at h
      | some c1 =>
        rw [hi] at h
        simp only [Option.bind_eq_bind, Option.some_bind] at h
        cases ha : activeControlBlockIndex c1 with
        | none =>
          rw [ha] at h
          simp at h
        | some active =>
          rw [ha] at h
          simp only [Option.bind_eq_bind, Option.some_bind] at h
          cases ht : targetIndices active (dflt :: labels) with
          | none =>
            rw [ht] at h
            simp at h
          | some targets =>
            rw [ht] at h
            simp only [Option.bind_eq_bind, Option.some_bind] at h
            exact branchCounter_pos h
              (fun b hb => hc b ((incrementCounter_finalized hi) ▸ hb))
    case Return =>
      cases hi : incrementCounter c cost with
      | none =>
        rw [hi] at h
        simp at h
      | some c1 =>
        rw [hi] at h
        simp only [Option.bind_eq_bind, Option.some_bind] at h
        exact branchCounter_pos h
          (fun b hb => hc b ((incrementCounter_finalized hi) ▸ hb))
    case Unreachable =>
      cases hi : incrementCounter c cost with
      | none =>
        rw [hi] at h
        simp at h
      | some c1 =>
        rw [hi] at h
        simp only [Option.bind_eq_bind, Option.some_bind] at h
        exact finalizeMeteredBlock_pos h
          (fun b hb => hc b ((incrementCounter_finalized hi) ▸ hb))
    all_goals
      exact fun b hb => hc b ((incrementCounter_finalized h) ▸ hb)

theorem dmbRun_pos {rules : RuleSet} :
    ∀ {instrs : List Instruction} {cursor : Nat} {c c' : Counter},
      dmbRun rules instrs cursor c = some c' →
      (∀ b ∈ c.finalized_blocks, 0 < b.cost) →
      ∀ b ∈ c'.finalized_blocks, 0 < b.cost
  | [], cursor, c, c', h, hc => by
    simp only [dmbRun, Option.some.injEq] at h
    subst h
    exact hc
  | i :: rest, cursor, c, c', h, hc => by
    simp only [dmbRun] at h
    cases hs : dmbStep rules cursor i c with
    | none =>
      rw [hs] at h
      exact Option.noConfusion h
    | some c1 =>
      rw [hs] at h
      exact dmbRun_pos h (dmbStep_pos hs hc)

theorem determine_metered_blocks_pos (instrs : List Instruction)
    (rules : RuleSet) (blocks : List MeteredBlock)
    (h : determine_metered_blocks instrs rules = some blocks) :
    ∀ b ∈ blocks, 0 < b.cost := by
  simp only [determine_metered_blocks] at h
  split at h
  · exact Option.noConfusion h
  · next c hr =>
    split at h
    · simp only [Option.some.injEq] at h
      subst h
      have hc := dmbRun_pos hr (fun b hb => absurd hb (List.not_mem_nil b))
      intro b hb
      exact hc b ((List.perm_insertionSort _ c.finalized_blocks).mem_iff.mp hb)
    · exact Option.noConfusion h

/-- C7 (amended): every metered block the analyzer emits has non-zero
cost (zero-cost blocks are suppressed during analysis, not by the
injector); an instrumented body begins with
`i32.const (cost as i32); call gas` exactly when the block list is
nonempty and its first block starts at position 0 — otherwise the body
begins with its original first instruction, including the case of a first
block with non-zero cost starting past position 0. -/
theorem body_head_charge (instrs : List Instruction) (rules : RuleSet)
    (blocks : List MeteredBlock) (g : Nat) (out : List Instruction)
    (hd : determine_metered_blocks instrs rules = some blocks)
    (hi : insert_metering_calls instrs blocks g = some out) :
    (∀ b ∈ blocks, 0 < b.cost) ∧
    (blocks = [] → out = instrs) ∧
    (∀ (b : MeteredBlock) (bs : List MeteredBlock), blocks = b :: bs →
      b.start_pos = 0 →
      out.take 2 = [Instruction.I32Const (toI32 b.cost), Instruction.Call g]) ∧
    (∀ (b : MeteredBlock) (bs : List MeteredBlock), blocks = b :: bs →
      b.start_pos ≠ 0 → out.head? = instrs.head?) := by
  have hpos := determine_metered_blocks_pos instrs rules blocks hd
  obtain ⟨h2, h1⟩ := (insert_metering_calls_eq_some instrs blocks g out).mp hi
  refine ⟨hpos, ?_, ?_, ?_⟩
  · intro hnil
    subst hnil
    rw [← h1, imcLoop_blocksNil]
  · intro b bs hbs hstart
    subst hbs
    have hb := ((imcLoop_snd_nil_iff g instrs 0 (b :: bs)).mp h2).2 b
      (List.mem_cons_self b bs)
    cases instrs with
    | nil =>
      exfalso
      simp at hb
    | cons i rest =>
      rw [← h1]
      simp [imcLoop, hstart]
  · intro b bs hbs hne
    subst hbs
    have hb := ((imcLoop_snd_nil_iff g instrs 0 (b :: bs)).mp h2).2 b
      (List.mem_cons_self b bs)
    cases instrs with
    | nil =>
      exfalso
      simp at hb
    | cons i rest =>
      rw [← h1]
      simp [imcLoop, if_neg hne]

/-- Witness for the amended C7 at the `simple` test body. -/
theorem body_head_charge_witness :
    (∀ b ∈ ([⟨0, 1⟩] : List MeteredBlock), 0 < b.cost) ∧
    (([⟨0, 1⟩] : List MeteredBlock) = [] →
      ([Instruction.I32Const 1, Instruction.Call 0, Instruction.GetGlobal 0,
          Instruction.End] : List Instruction) =
        [Instruction.GetGlobal 0, Instruction.End]) ∧
    (∀ (b : MeteredBlock) (bs : List MeteredBlock),
      ([⟨0, 1⟩] : List MeteredBlock) = b :: bs → b.start_pos = 0 →
      ([Instruction.I32Const 1, Instruction.Call 0, Instruction.GetGlobal 0,
          Instruction.End] : List Instruction).take 2 =
        [Instruction.I32Const (toI32 b.cost), Instruction.Call 0]) ∧
    (∀ (b : MeteredBlock) (bs : List MeteredBlock),
      ([⟨0, 1⟩] : List MeteredBlock) = b :: bs → b.start_pos ≠ 0 →
      ([Instruction.I32Const 1, Instruction.Call 0, Instruction.GetGlobal 0,
          Instruction.End] : List Instruction).head? =
        ([Instruction.GetGlobal 0, Instruction.End] :
          List Instruction).head?) :=
  body_head_charge [Instruction.GetGlobal 0, Instruction.End] defaultRules
    [⟨0, 1⟩] 0
    [Instruction.I32Const 1, Instruction.Call 0, Instruction.GetGlobal 0,
      Instruction.End] (by decide) (by decide)

/-- Counterexample to C7 as stated: under a rule set pricing `br` at zero,
the body `br 0; get_global 0; end` is successfully injected, its (first
and only) metered block has non-zero cost 1, yet the instrumented body
begins with the original `br 0` and not with an `i32.const; call` pair —
and no suppression happened on account of a zero block cost. -/
theorem body_head_charge_counterexample :
    determine_metered_blocks
      [Instruction.Br 0, Instruction.GetGlobal 0, Instruction.End]
      brFreeRules = some [⟨1, 1⟩] ∧
    inject_gas_counter brModule brFreeRules = Except.ok
      ⟨[⟨[], none⟩, ⟨[ValueType.i32], none⟩],
       [⟨"env", "gas", External.func 1⟩], [0],
       [⟨[Instruction.Br 0, Instruction.I32Const 1, Instruction.Call 0,
          Instruction.GetGlobal 0, Instruction.End]⟩], [], [], none⟩ ∧
    (0 : Nat) < 1 ∧
    ([Instruction.Br 0, Instruction.I32Const 1, Instruction.Call 0,
        Instruction.GetGlobal 0, Instruction.End] :
      List Instruction).head? ≠ some (Instruction.I32Const (toI32 1)) :=
  ⟨by decide, by rfl, by decide, by decide⟩

/-! Counting `memory.grow 0` through the transformation. -/

theorem countGrow_cons (i : Instruction) (l : List Instruction) :
    countGrow (i :: l) =
      countGrow l + if i = Instruction.GrowMemory 0 then 1 else 0 := by
  simp [countGrow, List.countP_cons]

theorem countGrow_update_call_index (l : List Instruction) (g : Nat) :
    countGrow (update_call_index l g) = countGrow l := by
  induction l with
  | nil => rfl
  | cons i t ih =>
    have hstep : update_call_index (i :: t) g =
        (match i with
         | Instruction.Call idx =>
           Instruction.Call (if g ≤ idx then idx + 1 else idx)
         | other => other) :: update_call_index t g := rfl
    rw [hstep]
    cases i <;> simp [countGrow_cons, ih]

theorem countGrow_imcLoop (g : Nat) :
    ∀ (instrs : List Instruction) (pos : Nat) (blocks : List MeteredBlock),
      countGrow (imcLoop g instrs pos blocks).1 = countGrow instrs
  | [], _, bs => by simp [imcLoop]
  | i :: rest, pos, [] => by
    simp [imcLoop_blocksNil]
  | i :: rest, pos, b :: bs => by
    by_cases hb : b.start_pos = pos
    · simp only [imcLoop, if_pos hb]
      simp [countGrow_cons, countGrow_imcLoop g rest (pos + 1) bs]
    · simp only [imcLoop, if_neg hb]
      simp [countGrow_cons, countGrow_imcLoop g rest (pos + 1) (b :: bs)]

theorem inject_counter_ok_countGrow (code : List Instruction)
    (rules : RuleSet) (g : Nat) (out : List Instruction)
    (h : inject_counter code rules g = Except.ok out) :
    countGrow out = countGrow code := by
  simp only [inject_counter] at h
  split at h
  · exact Except.noConfusion h
  · next blocks hd =>
    split at h
    · next out1 hins =>
      simp only [Except.ok.injEq] at h
      subst h
      obtain ⟨-, h1⟩ :=
        (insert_metering_calls_eq_some code blocks g out1).mp hins
      rw [← h1]
      exact countGrow_imcLoop g code 0 blocks
    · exact Except.noConfusion h

theorem inject_grow_counter_fst_countGrow (l : List Instruction) (t : Nat) :
    countGrow (inject_grow_counter l t).1 = 0 := by
  induction l with
  | nil => rfl
  | cons i rest ih =>
    have hstep : (inject_grow_counter (i :: rest) t).1 =
        (if i = Instruction.GrowMemory 0 then Instruction.Call t else i) ::
          (inject_grow_counter rest t).1 := rfl
    rw [hstep]
    by_cases hi : i = Instruction.GrowMemory 0
    · simp [countGrow_cons, hi, ih]
    · simp [countGrow_cons, hi, ih]

theorem inject_grow_counter_snd (l : List Instruction) (t : Nat) :
    (inject_grow_counter l t).2 = countGrow l := rfl

/-- Characterization of the body walk on success: every body is produced,
the grow flag is set exactly when the grow cost is positive and some body
contains a `memory.grow 0`, and per body the `memory.grow 0` count is
preserved when the grow cost is zero and reduced to zero (all replaced)
when it is positive. -/
theorem processBodies_ok (rules : RuleSet) (g t : Nat) :
    ∀ (bs out : List FuncBody) (ng : Bool),
      processBodies rules g t bs = (out, false, ng) →
      out.length = bs.length ∧
      (ng = true ↔ (0 < rules.grow_cost ∧ ∃ b ∈ bs, 0 < countGrow b.code)) ∧
      (rules.grow_cost = 0 →
        ∀ (k : Nat) (b : FuncBody), bs[k]? = some b →
          ∃ b' : FuncBody, out[k]? = some b' ∧
            countGrow b'.code = countGrow b.code) ∧
      (0 < rules.grow_cost →
        ∀ (k : Nat) (b : FuncBody), bs[k]? = some b →
          ∃ b' : FuncBody, out[k]? = some b' ∧ countGrow b'.code = 0)
  | [], out, ng, h => by
    simp only [processBodies, Prod.mk.injEq] at h
    obtain ⟨h1, -, h3⟩ := h
    subst h1
    subst h3
    refine ⟨rfl, by simp, ?_, ?_⟩ <;> intro _ k b hk <;> simp at hk
  | b :: rest, out, ng, h => by
    simp only [processBodies] at h
    split at h
    · simp only [Prod.mk.injEq] at h
      exact absurd h.2.1 (by simp)
    · next code2 hok =>
      simp only [Prod.mk.injEq] at h
      obtain ⟨hout, herr, hng⟩ := h
      have hpbeq : processBodies rules g t rest =
          ((processBodies rules g t rest).1, false,
           (processBodies rules g t rest).2.2) := by
        rw [← herr]
      obtain ⟨ihlen, ihiff, ihzero, ihpos⟩ :=
        processBodies_ok rules g t rest (processBodies rules g t rest).1
          (processBodies rules g t rest).2.2 hpbeq
      subst hout
      subst hng
      have hcount : countGrow code2 = countGrow b.code := by
        have h2 := inject_counter_ok_countGrow _ rules g code2 hok
        rw [h2, countGrow_update_call_index]
      refine ⟨by simp [ihlen], ?_, ?_, ?_⟩
      · by_cases hgrow : 0 < rules.grow_cost
        · simp only [if_pos hgrow, inject_grow_counter_snd, hcount,
            Bool.or_eq_true, decide_eq_true_eq, ihiff]
          constructor
          · rintro (⟨-, b', hb', hc⟩ | hpos)
            · exact ⟨hgrow, b', List.mem_cons_of_mem b hb', hc⟩
            · exact ⟨hgrow, b, List.mem_cons_self b rest, hpos⟩
          · rintro ⟨-, b', hb', hc⟩
            rcases List.mem_cons.mp hb' with rfl | h'
            · exact Or.inr hc
            · exact Or.inl ⟨hgrow, b', h', hc⟩
        · simp [hgrow, ihiff]
      · intro hg0 k b2 hk
        cases k with
        | zero =>
          simp only [List.getElem?_cons_zero, Option.some.injEq] at hk
          subst hk
          refine ⟨⟨(if 0 < rules.grow_cost then inject_grow_counter code2 t
            else (code2, 0)).1⟩, by simp, ?_⟩
          have hgrow : ¬ 0 < rules.grow_cost := by omega
          simp only [if_neg hgrow]
          exact hcount
        | succ k1 =>
          simp only [List.getElem?_cons_succ] at hk
          obtain ⟨b', hb', hcnt⟩ := ihzero hg0 k1 b2 hk
          exact ⟨b', by simp [hb'], hcnt⟩
      · intro hgrow k b2 hk
        cases k with
        | zero =>
          simp only [List.getElem?_cons_zero, Option.some.injEq] at hk
          subst hk
          refine ⟨⟨(if 0 < rules.grow_cost then inject_grow_counter code2 t
            else (code2, 0)).1⟩, by simp, ?_⟩
          simp only [if_pos hgrow]
          exact inject_grow_counter_fst_countGrow code2 t
        | succ k1 =>
          simp only [List.getElem?_cons_succ] at hk
          obtain ⟨b', hb', hcnt⟩ := ihpos hgrow k1 b2 hk
          exact ⟨b', by simp [hb'], hcnt⟩

/-- C8: on success, the grow thunk is appended exactly when the grow cost
is positive and some body contained a `memory.grow 0` (so a substitution
occurred); when appended it is the last function of the output — its body
is exactly `grow_thunk_body` (`local.get 0; local.get 0;
i32.const grow_cost; i32.mul; call gas; memory.grow 0; end`), its function
entry points at the appended signature `(i32) → i32`, and every user body
has all its `memory.grow 0` replaced; when the grow cost is zero, no thunk
is appended and every body keeps its `memory.grow 0` count. -/
theorem grow_thunk_appended (m : Module) (rules : RuleSet) (m' : Module)
    (h : inject_gas_counter m rules = Except.ok m') :
    (m'.bodies.length = m.bodies.length + 1 ↔
      (0 < rules.grow_cost ∧ ∃ b ∈ m.bodies, 0 < countGrow b.code)) ∧
    ((0 < rules.grow_cost ∧ ∃ b ∈ m.bodies, 0 < countGrow b.code) →
      m'.bodies[m.bodies.length]? =
        some ⟨grow_thunk_body rules (gas_func_index m)⟩ ∧
      m'.functions[m.functions.length]? = some (m.types.length + 1) ∧
      m'.types[m.types.length + 1]? =
        some ⟨[ValueType.i32], some ValueType.i32⟩ ∧
      m'.bodies.length = m.bodies.length + 1 ∧
      m'.functions.length = m.functions.length + 1 ∧
      m'.types.length = m.types.length + 2 ∧
      (∀ (k : Nat) (b : FuncBody), m.bodies[k]? = some b →
        ∃ b' : FuncBody, m'.bodies[k]? = some b' ∧
          countGrow b'.code = 0)) ∧
    (¬(0 < rules.grow_cost ∧ ∃ b ∈ m.bodies, 0 < countGrow b.code) →
      m'.bodies.length = m.bodies.length ∧ m'.functions = m.functions ∧
      m'.types.length = m.types.length + 1) ∧
    (rules.grow_cost = 0 →
      ∀ (k : Nat) (b : FuncBody), m.bodies[k]? = some b →
        ∃ b' : FuncBody, m'.bodies[k]? = some b' ∧
          countGrow b'.code = countGrow b.code) := by
  obtain ⟨herr, -, -, -, -, hng, hnog⟩ :=
    inject_gas_counter_ok_fields m rules m' h
  have hpbeq : processBodies rules (gas_func_index m)
      (functions_space (with_gas_import m)) m.bodies =
      ((processBodies rules (gas_func_index m)
          (functions_space (with_gas_import m)) m.bodies).1, false,
       (processBodies rules (gas_func_index m)
          (functions_space (with_gas_import m)) m.bodies).2.2) := by
    rw [← herr]
  obtain ⟨hlen, hiff, hzero, hposl⟩ :=
    processBodies_ok rules (gas_func_index m)
      (functions_space (with_gas_import m)) m.bodies
      (processBodies rules (gas_func_index m)
        (functions_space (with_gas_import m)) m.bodies).1
      (processBodies rules (gas_func_index m)
        (functions_space (with_gas_import m)) m.bodies).2.2 hpbeq
  cases hflag : (processBodies rules (gas_func_index m)
      (functions_space (with_gas_import m)) m.bodies).2.2 with
  | true =>
    obtain ⟨ht, hf, hb⟩ := hng hflag
    have hcond : 0 < rules.grow_cost ∧
        ∃ b ∈ m.bodies, 0 < countGrow b.code := hiff.mp hflag
    refine ⟨⟨fun _ => hcond, fun _ => by rw [hb]; simp [hlen]⟩, ?_, ?_, ?_⟩
    · intro _
      refine ⟨?_, ?_, ?_, by rw [hb]; simp [hlen], by rw [hf]; simp,
        by rw [ht]; simp, ?_⟩
      · rw [hb, ← hlen]
        exact List.getElem?_concat_length _ _
      · rw [hf]
        exact List.getElem?_concat_length _ _
      · rw [ht]
        have hl : (m.types ++ [(⟨[ValueType.i32], none⟩ : FunctionType)]).length
            = m.types.length + 1 := by simp
        rw [← hl]
        exact List.getElem?_concat_length _ _
      · intro k b hk
        obtain ⟨b', hb', hcnt⟩ := hposl hcond.1 k b hk
        have hklt : k < m.bodies.length := by
          obtain ⟨hlt, -⟩ := List.getElem?_eq_some_iff.mp hk
          exact hlt
        refine ⟨b', ?_, hcnt⟩
        rw [hb, List.getElem?_append_left (by rw [hlen]; exact hklt)]
        exact hb'
    · intro hnot
      exact absurd hcond hnot
    · intro hg0
      exact absurd hcond.1 (by omega)
  | false =>
    obtain ⟨ht, hf, hb⟩ := hnog hflag
    have hncond : ¬(0 < rules.grow_cost ∧
        ∃ b ∈ m.bodies, 0 < countGrow b.code) := by
      intro hc
      have h2 := hiff.mpr hc
      rw [hflag] at h2
      exact Bool.noConfusion h2
    refine ⟨⟨?_, fun hc => absurd hc hncond⟩, fun hc => absurd hc hncond,
      ?_, ?_⟩
    · intro hlen1
      rw [hb, hlen] at hlen1
      omega
    · intro _
      exact ⟨by rw [hb, hlen], hf, by rw [ht]; simp⟩
    · intro hg0 k b hk
      obtain ⟨b', hb', hcnt⟩ := hzero hg0 k b hk
      refine ⟨b', ?_, hcnt⟩
      rw [hb]
      exact hb'

/-- Witness for C8: the `simple_grow` test module under grow cost
10000. -/
theorem grow_thunk_appended_witness :
    (growInjected.bodies.length = growModule.bodies.length + 1 ↔
      (0 < (growRules 10000).grow_cost ∧
        ∃ b ∈ growModule.bodies, 0 < countGrow b.code)) ∧
    ((0 < (growRules 10000).grow_cost ∧
        ∃ b ∈ growModule.bodies, 0 < countGrow b.code) →
      growInjected.bodies[growModule.bodies.length]? =
        some ⟨grow_thunk_body (growRules 10000) (gas_func_index growModule)⟩ ∧
      growInjected.functions[growModule.functions.length]? =
        some (growModule.types.length + 1) ∧
      growInjected.types[growModule.types.length + 1]? =
        some ⟨[ValueType.i32], some ValueType.i32⟩ ∧
      growInjected.bodies.length = growModule.bodies.length + 1 ∧
      growInjected.functions.length = growModule.functions.length + 1 ∧
      growInjected.types.length = growModule.types.length + 2 ∧
      (∀ (k : Nat) (b : FuncBody), growModule.bodies[k]? = some b →
        ∃ b' : FuncBody, growInjected.bodies[k]? = some b' ∧
          countGrow b'.code = 0)) ∧
    (¬(0 < (growRules 10000).grow_cost ∧
        ∃ b ∈ growModule.bodies, 0 < countGrow b.code) →
      growInjected.bodies.length = growModule.bodies.length ∧
      growInjected.functions = growModule.functions ∧
      growInjected.types.length = growModule.types.length + 1) ∧
    ((growRules 10000).grow_cost = 0 →
      ∀ (k : Nat) (b : FuncBody), growModule.bodies[k]? = some b →
        ∃ b' : FuncBody, growInjected.bodies[k]? = some b' ∧
          countGrow b'.code = countGrow b.code) :=
  grow_thunk_appended growModule (growRules 10000) growInjected (by rfl)

/-- Witness for C9 at `p = 2 ^ 16` pages and grow cost `2 ^ 16`: the true
product `2 ^ 32` wraps to `0`. -/
theorem grow_thunk_gas_arg_witness :
    gasCallArg 0 (2 ^ 16) (grow_thunk_body (growRules (2 ^ 16)) 0) [] =
      some ((2 ^ 16 * (growRules (2 ^ 16)).grow_cost) % 2 ^ 32) ∧
    (2 ^ 16 * (growRules (2 ^ 16)).grow_cost) % 2 ^ 32 = 0 :=
  ⟨grow_thunk_gas_arg (growRules (2 ^ 16)) 0 (2 ^ 16) (by decide) (by decide),
   by decide⟩

end Gas
